import Mathlib

/-!
Verification of the flux-integration core of `surrkick` (src/surrkick.py).

The Python source is shallowly embedded below:
* integer index arithmetic is embedded as `ℤ`;
* floating-point scalars are idealised as `ℝ` (or as `ℚ` where the claim at
  hand only involves exact comparisons of machine values);
* complex mode time series sampled on the time grid of length `n` are
  embedded as functions `Fin n → ℂ`, and real 3-vector samples as `ℝ × ℝ × ℝ`;
* fallible code (an `assert`, a Python-2 `ValueError`/`ZeroDivisionError`)
  is embedded as `Option`/`Except`, `none`/`.error` marking the raise; code
  with no failure point is embedded as `.ok` of its value.

Note the source file is Python 2 (it imports `cPickle` and
`print_function`); in Python 2, `x ** 0.5` raises `ValueError` when
`x < 0`, and `from __future__ import division` makes `/` true division.

The file is organised as: all definitions (each headed by the source lines
it embeds), then helper lemmas, then the per-claim theorems.
-/

/-- Embedding of `np.arange(a, b)` for integer arguments: the list
`a, a+1, ..., b-1`, empty when `b ≤ a` (used at src/surrkick.py:41-42). -/
def arange (a b : ℤ) : List ℤ :=
  (List.range (b - a).toNat).map (fun i : ℕ => a + (i : ℤ))

namespace summodes

/-- Embedding of `summodes.single` (src/surrkick.py:35-44): the list of
pairs `(l, m)` with `l` running over `np.arange(2, lmax+1)` and, for each
`l`, `m` running over `np.arange(-l, l+1)`, appended in loop order. -/
def single (lmax : ℤ) : List (ℤ × ℤ) :=
  (arange 2 (lmax + 1)).flatMap (fun l => (arange (-l) (l + 1)).map (fun m => (l, m)))

end summodes

/-- Embedding of the Python-2 fractional power `x ** 0.5`: returns
`sqrt x` for `x ≥ 0` and raises (`ValueError`, modelled as `none`) for
`x < 0`. -/
noncomputable def powHalf (x : ℚ) : Option ℝ :=
  if 0 ≤ x then some (Real.sqrt (x : ℝ)) else none

namespace coeffs

/-- Embedding of `coeffs.a` (src/surrkick.py:65-70):
`((l-m)*(l+m+1))**0.5 / (l*(l+1))`.  The radicand power can raise on a
negative radicand; the division raises `ZeroDivisionError` when
`l*(l+1) = 0`. -/
noncomputable def a (l m : ℤ) : Option ℝ :=
  (powHalf (((l - m) * (l + m + 1) : ℤ) : ℚ)).bind (fun r =>
    if (l * (l + 1) : ℤ) = 0 then none else some (r / ((l * (l + 1) : ℤ) : ℝ)))

/-- Embedding of `coeffs.b` (src/surrkick.py:72-77):
`(1/(2*l)) * (((l-2)*(l+2)*(l+m)*(l+m-1)) / ((2*l-1)*(2*l+1)))**0.5`.
Python evaluates `1/(2*l)` first (raising when `l = 0`), then the inner
division (its denominator is a product of odd integers, never zero, but the
guard is kept for fidelity), then the power. -/
noncomputable def b (l m : ℤ) : Option ℝ :=
  if (2 * l : ℤ) = 0 then none
  else if ((2 * l - 1) * (2 * l + 1) : ℤ) = 0 then none
  else
    (powHalf ((((l - 2) * (l + 2) * (l + m) * (l + m - 1) : ℤ) : ℚ) /
        (((2 * l - 1) * (2 * l + 1) : ℤ) : ℚ))).map
      (fun r => (1 / (2 * (l : ℝ))) * r)

/-- Embedding of `coeffs.c` (src/surrkick.py:79-84): `2*m / (l*(l+1))`;
no square root, raising only when `l*(l+1) = 0`. -/
noncomputable def c (l m : ℤ) : Option ℝ :=
  if (l * (l + 1) : ℤ) = 0 then none
  else some (((2 * m : ℤ) : ℝ) / ((l * (l + 1) : ℤ) : ℝ))

/-- Embedding of `coeffs.d` (src/surrkick.py:86-91):
`(1/l) * (((l-2)*(l+2)*(l-m)*(l+m)) / ((2*l-1)*(2*l+1)))**0.5`. -/
noncomputable def d (l m : ℤ) : Option ℝ :=
  if (l : ℤ) = 0 then none
  else if ((2 * l - 1) * (2 * l + 1) : ℤ) = 0 then none
  else
    (powHalf ((((l - 2) * (l + 2) * (l - m) * (l + m) : ℤ) : ℚ) /
        (((2 * l - 1) * (2 * l + 1) : ℤ) : ℚ))).map
      (fun r => (1 / (l : ℝ)) * r)

/-- Embedding of `coeffs.f` (src/surrkick.py:93-98):
`(l*(l+1) - m*(m+1))**0.5`. -/
noncomputable def f (l m : ℤ) : Option ℝ :=
  powHalf ((l * (l + 1) - m * (m + 1) : ℤ) : ℚ)

end coeffs

/-- Error conditions of the embedded fallible code: the `assert` in
`surrkick.__init__` (src/surrkick.py:174) and the `assert` in
`surrkick.dPdt` (src/surrkick.py:308). -/
inductive Err where
  | configError
  | consistencyCheck

/-- Embedding of the `t_ref` handling in `surrkick.__init__`
(src/surrkick.py:169-176): store the argument, assert
`-4500 <= t_ref <= -100` (an `AssertionError` is modelled as `.error`),
then replace the stored value by the `None` sentinel (inner `none`) exactly
when `t_ref == -4500`. -/
def initTref (t : ℚ) : Except Err (Option ℚ) :=
  if -4500 ≤ t ∧ t ≤ -100 then
    Except.ok (if t = -4500 then none else some t)
  else Except.error Err.configError

/-- Embedding of Python `max(...)` over a nonempty numpy 1-d array as a
left fold; the empty case (which numpy rejects) is given the junk value 0
and is never used by the theorems below. -/
def npmax : List ℚ → ℚ
  | [] => 0
  | x :: xs => xs.foldl max x

/-- Embedding of the tail of `surrkick.dPdt` (src/surrkick.py:305-311),
after the mode sums have produced the complex series `dPpdt` and `dPzdt`
(sample-aligned lists of (re, im) pairs): take `dPxdt = Re dPpdt`,
`dPydt = Im dPpdt`, run `assert max(dPzdt.imag) < 1e-6` (the raise is
modelled as `.error .consistencyCheck`), discard the imaginary part of
`dPzdt`, and transpose into per-sample triples `(dPx, dPy, dPz)`. -/
def dPdtFinalize (dPpdt dPzdt : List (ℚ × ℚ)) : Except Err (List (ℚ × ℚ × ℚ)) :=
  if npmax (dPzdt.map Prod.snd) < 1 / 1000000 then
    Except.ok (List.zipWith (fun p z => (p.1, p.2, z.1)) dPpdt dPzdt)
  else Except.error Err.consistencyCheck

namespace integ

/-- Embedding of the hard-coded integration origin `origin=[0,0,0]` of
`surrkick.xoft` (src/surrkick.py:428; the same constant appears in `Poft`
at line 322 and `Joft` at line 407). -/
def origin3 : Fin 3 → ℚ := fun _ => 0

/-- Embedding of `surrkick.xoft` (src/surrkick.py:421-430), one scalar
component per `c : Fin 3`:
`spline(times, v).antiderivative()(times) - vo*times` with
`vo = origin[c] = 0`.  The scipy spline antiderivative (an external
library, out of the repository) is abstracted as the operator `A` applied
to the component series `v c`; series are sample-indexed functions
`ℕ → ℚ`. -/
def xoft (A : (ℕ → ℚ) → ℕ → ℚ) (times : ℕ → ℚ) (v : Fin 3 → ℕ → ℚ) :
    Fin 3 → ℕ → ℚ :=
  fun c i => A (v c) i - origin3 c * times i

/-- Modelled from the spec: the drift-corrected trajectory that spec
section 4.5 (and claim C2) describes — the antiderivative of the velocity
minus the linear-in-time contribution of the mean velocity `vmean`
estimated over an early buffer window.  The window-mean estimate itself is
taken as the parameter `vmean`; what matters for the claim is that a
nonzero `vmean` contributes the subtracted term `vmean * t`, which the
code (`xoft` above, with `origin = [0,0,0]`) never subtracts. -/
def xoftDrift (A : (ℕ → ℚ) → ℕ → ℚ) (times : ℕ → ℚ) (v : Fin 3 → ℕ → ℚ)
    (vmean : Fin 3 → ℚ) : Fin 3 → ℕ → ℚ :=
  fun c i => A (v c) i - vmean c * times i

end integ

/-- Embedding of the slice of a `surrkick` object the mode-sum claims
depend on: `n` is `len(self.times)` (the time-grid length), `lmax` the
largest available `l` (src/surrkick.py:203-211), and
`hsample`/`hdotsample` the raw strain modes and their spline derivatives
(src/surrkick.py:194-201, 224-238; both produced by the external surrogate
model and scipy spline, hence taken as data).  Series are `Fin n → ℂ`, so
"a series of the same length as the time grid" is captured by the type. -/
structure Surrkick (n : ℕ) where
  lmax : ℤ
  hsample : ℤ × ℤ → Fin n → ℂ
  hdotsample : ℤ × ℤ → Fin n → ℂ

/-- Embedding of `surrkick.h` (src/surrkick.py:213-222): return the zero
series (`np.zeros(len(self.times))`) when `l < 2 or l > lmax`, or else
when `m < -l or m > l`, and the stored mode otherwise. -/
def Surrkick.h {n : ℕ} (S : Surrkick n) (l m : ℤ) : Fin n → ℂ :=
  if l < 2 ∨ S.lmax < l then fun _ => 0
  else if m < -l ∨ l < m then fun _ => 0
  else S.hsample (l, m)

/-- Embedding of `surrkick.hdot` (src/surrkick.py:240-249): the same
zero-padding policy applied to the derivative samples. -/
def Surrkick.hdot {n : ℕ} (S : Surrkick n) (l m : ℤ) : Fin n → ℂ :=
  if l < 2 ∨ S.lmax < l then fun _ => 0
  else if m < -l ∨ l < m then fun _ => 0
  else S.hdotsample (l, m)

/-- Embedding of `surrkick.dEdt` (src/surrkick.py:251-266): the loop
`dEdt += (1/(16*np.pi)) * np.abs(self.hdot(l,m))**2` over
`summodes.single(lmax)`, pointwise per sample `i`. -/
noncomputable def Surrkick.dEdt {n : ℕ} (S : Surrkick n) : Fin n → ℝ :=
  fun i => ((summodes.single S.lmax).map
    (fun p => (1 / (16 * Real.pi)) * Complex.abs (S.hdot p.1 p.2 i) ^ 2)).sum

/-- The set of mode indices named by the spec: all `(l, m)` with
`2 ≤ l ≤ lmax` and `-l ≤ m ≤ l` (defined from the range conditions, to be
compared with the enumerated list `summodes.single`). -/
def specModes (lmax : ℤ) : Finset (ℤ × ℤ) :=
  (Finset.Icc 2 lmax).biUnion (fun l => (Finset.Icc (-l) l).image (fun m => (l, m)))

/-- Real 3-vectors, embedding one time sample of a numpy `(len(times), 3)`
array. -/
abbrev Vec3 := ℝ × ℝ × ℝ

/-- Embedding of `np.linalg.norm` on a 3-vector (src/surrkick.py:338). -/
noncomputable def norm3 (v : Vec3) : ℝ := Real.sqrt (v.1 ^ 2 + v.2.1 ^ 2 + v.2.2 ^ 2)

/-- Componentwise negation of a 3-vector (numpy unary minus). -/
noncomputable def vneg (v : Vec3) : Vec3 := (-v.1, -v.2.1, -v.2.2)

/-- Componentwise division of a 3-vector by a scalar (numpy broadcasting
division, src/surrkick.py:367). -/
noncomputable def vdivs (v : Vec3) (s : ℝ) : Vec3 := (v.1 / s, v.2.1 / s, v.2.2 / s)

/-- Embedding of `surrkick.Prad` (src/surrkick.py:332-339):
`np.linalg.norm(self.Poft[-1])`.  The kick-summary definitions below are
functions of the integrated momentum series `Poft` (length `n+1`, so the
`[-1]` sample `Fin.last n` exists), because upstream of them `Poft` is
produced by the external scipy spline integration. -/
noncomputable def Prad {n : ℕ} (Poft : Fin (n + 1) → Vec3) : ℝ :=
  norm3 (Poft (Fin.last n))

/-- Embedding of `surrkick.voft` (src/surrkick.py:341-346): `-self.Poft`,
pointwise in the sample index. -/
noncomputable def voft {n : ℕ} (Poft : Fin (n + 1) → Vec3) : Fin (n + 1) → Vec3 :=
  fun i => vneg (Poft i)

/-- Embedding of `surrkick.kick` (src/surrkick.py:348-353): `self.Prad`. -/
noncomputable def kick {n : ℕ} (Poft : Fin (n + 1) → Vec3) : ℝ := Prad Poft

/-- Embedding of `surrkick.kickcomp` (src/surrkick.py:355-360):
`self.voft[-1]`. -/
noncomputable def kickcomp {n : ℕ} (Poft : Fin (n + 1) → Vec3) : Vec3 :=
  voft Poft (Fin.last n)

/-- Embedding of `surrkick.kickdir` (src/surrkick.py:362-367):
`self.kickcomp / self.kick`.  The body is a single numpy float division,
which raises no exception for any value of `kick` (a zero divisor yields
non-finite junk entries, not an error), so the embedded method has no
failure point: it is `.ok` of the unguarded quotient.  The `Except` return
type records exactly that there is no error branch to hit. -/
noncomputable def kickdir {n : ℕ} (Poft : Fin (n + 1) → Vec3) : Except Err Vec3 :=
  Except.ok (vdivs (kickcomp Poft) (kick Poft))

/-- Concrete one-sample momentum series with last value `(1, 0, 0)`. -/
noncomputable def Pone : Fin 1 → Vec3 := fun _ => (1, 0, 0)

/-- Concrete one-sample momentum series that is identically zero: a
zero-kick configuration. -/
noncomputable def Pzero : Fin 1 → Vec3 := fun _ => (0, 0, 0)

/-- Concrete one-sample momentum series with last value `(3, 4, 0)`, of
norm 5. -/
noncomputable def Pthreefour : Fin 1 → Vec3 := fun _ => (3, 4, 0)

/-! Helper lemmas. -/

theorem mem_arange {a b x : ℤ} : x ∈ arange a b ↔ a ≤ x ∧ x < b := by
  unfold arange
  rw [List.mem_map]
  constructor
  · rintro ⟨i, hi, rfl⟩
    rw [List.mem_range] at hi
    omega
  · rintro ⟨h1, h2⟩
    exact ⟨(x - a).toNat, by rw [List.mem_range]; omega, by omega⟩

theorem nodup_arange {a b : ℤ} : (arange a b).Nodup := by
  unfold arange
  exact List.Nodup.map (fun i j h => by omega) (List.nodup_range _)

theorem pairwise_arange {a b : ℤ} : (arange a b).Pairwise (· < ·) := by
  unfold arange
  exact List.Pairwise.map _ (fun i j h => by omega) (List.pairwise_lt_range _)

theorem mem_summodes_single {lmax : ℤ} {p : ℤ × ℤ} :
    p ∈ summodes.single lmax ↔ 2 ≤ p.1 ∧ p.1 ≤ lmax ∧ -p.1 ≤ p.2 ∧ p.2 ≤ p.1 := by
  obtain ⟨l, m⟩ := p
  unfold summodes.single
  simp only [List.mem_flatMap, List.mem_map, mem_arange, Prod.mk.injEq]
  constructor
  · rintro ⟨l', ⟨h1, h2⟩, m', ⟨h3, h4⟩, rfl, rfl⟩
    exact ⟨h1, by omega, by omega, by omega⟩
  · rintro ⟨h1, h2, h3, h4⟩
    exact ⟨l, ⟨h1, by omega⟩, m, ⟨h3, by omega⟩, rfl, rfl⟩

theorem nodup_summodes_single {lmax : ℤ} : (summodes.single lmax).Nodup := by
  unfold summodes.single
  rw [List.nodup_flatMap]
  refine ⟨fun l _ => nodup_arange.map (fun m m' h => by simpa using h), ?_⟩
  refine List.Pairwise.imp ?_ (pairwise_arange (a := 2) (b := lmax + 1))
  intro l l' hll'
  simp only [List.disjoint_left, List.mem_map]
  rintro p ⟨m, _, rfl⟩ ⟨m', _, h⟩
  exact absurd (congrArg Prod.fst h) (by simpa using hll'.ne')

theorem pairwise_summodes_single {lmax : ℤ} :
    (summodes.single lmax).Pairwise
      (fun p q => p.1 < q.1 ∨ (p.1 = q.1 ∧ p.2 < q.2)) := by
  unfold summodes.single
  rw [List.pairwise_flatMap]
  constructor
  · intro l _
    rw [List.pairwise_map]
    exact List.Pairwise.imp (fun h => Or.inr ⟨rfl, h⟩) pairwise_arange
  · refine List.Pairwise.imp ?_ (pairwise_arange (a := 2) (b := lmax + 1))
    intro l l' hll' p hp q hq
    simp only [List.mem_map] at hp hq
    obtain ⟨m, _, rfl⟩ := hp
    obtain ⟨m', _, rfl⟩ := hq
    exact Or.inl hll'

theorem summodes_single_eq_nil {lmax : ℤ} (h : lmax < 2) : summodes.single lmax = [] := by
  unfold summodes.single arange
  have : (lmax + 1 - 2).toNat = 0 := by omega
  rw [this]
  rfl

/-- A product of two consecutive integers is nonnegative. -/
theorem consec_mul_nonneg (k : ℤ) : 0 ≤ k * (k - 1) := by
  rcases le_or_lt 1 k with h | h
  · exact mul_nonneg (by omega) (by omega)
  · have := mul_nonneg (show (0 : ℤ) ≤ -k by omega) (show (0 : ℤ) ≤ -(k - 1) by omega)
    nlinarith

theorem powHalf_isSome {x : ℚ} (hx : 0 ≤ x) : (powHalf x).isSome = true := by
  simp [powHalf, hx]

theorem mem_specModes {lmax : ℤ} {p : ℤ × ℤ} :
    p ∈ specModes lmax ↔ 2 ≤ p.1 ∧ p.1 ≤ lmax ∧ -p.1 ≤ p.2 ∧ p.2 ≤ p.1 := by
  obtain ⟨l, m⟩ := p
  simp only [specModes, Finset.mem_biUnion, Finset.mem_Icc, Finset.mem_image, Prod.mk.injEq]
  constructor
  · rintro ⟨l', ⟨h1, h2⟩, m', ⟨h3, h4⟩, rfl, rfl⟩
    exact ⟨h1, h2, h3, h4⟩
  · rintro ⟨h1, h2, h3, h4⟩
    exact ⟨l, ⟨h1, h2⟩, m, ⟨h3, h4⟩, rfl, rfl⟩

theorem single_toFinset {lmax : ℤ} :
    (summodes.single lmax).toFinset = specModes lmax := by
  ext p
  rw [List.mem_toFinset, mem_summodes_single, mem_specModes]

theorem norm3_vneg (v : Vec3) : norm3 (vneg v) = norm3 v := by
  simp only [norm3, vneg]
  ring_nf

theorem norm3_vdivs (v : Vec3) (s : ℝ) (hs : 0 ≤ s) :
    norm3 (vdivs v s) = norm3 v / s := by
  simp only [norm3, vdivs]
  rw [div_pow, div_pow, div_pow, div_add_div_same, div_add_div_same,
    Real.sqrt_div' _ (by positivity), Real.sqrt_sq hs]

/-! Per-claim theorems. -/

/-- Claim C9: for every integer `lmax`, `summodes.single lmax` is exactly
the list of pairs `(l, m)` with `2 ≤ l ≤ lmax` and `-l ≤ m ≤ l`, each
appearing exactly once (no duplicates), ordered by ascending `l` and,
within each `l`, ascending `m`; and for `lmax < 2` the result is the empty
list, without error. -/
theorem summodes_single_spec (lmax : ℤ) :
    (∀ p : ℤ × ℤ, p ∈ summodes.single lmax ↔
        2 ≤ p.1 ∧ p.1 ≤ lmax ∧ -p.1 ≤ p.2 ∧ p.2 ≤ p.1)
    ∧ (summodes.single lmax).Nodup
    ∧ (summodes.single lmax).Pairwise
        (fun p q => p.1 < q.1 ∨ (p.1 = q.1 ∧ p.2 < q.2))
    ∧ (lmax < 2 → summodes.single lmax = []) :=
  ⟨fun _ => mem_summodes_single, nodup_summodes_single, pairwise_summodes_single,
    summodes_single_eq_nil⟩

/-- Witness for C9: `summodes.single 1` is empty (via the `lmax < 2` branch
of the theorem) and `(2, 0)` belongs to `summodes.single 2` (via the
membership characterisation), at concrete inputs. -/
theorem summodes_single_spec_witness :
    summodes.single 1 = [] ∧ (2, 0) ∈ summodes.single 2 :=
  ⟨(summodes_single_spec 1).2.2.2 (by decide),
    ((summodes_single_spec 2).1 (2, 0)).mpr (by decide)⟩

/-- Counterexample for C8: evaluated at `(l, m) = (1, 2)` the radicand of
`coeffs.a` is `(1-2)*(1+2+1) = -4 < 0`, and under the file's Python-2
semantics `(-4)**0.5` raises `ValueError`: the evaluation does not return
a finite placeholder value, refuting the claim that the coefficient
functions never raise on a negative radicand. -/
theorem coeffs_a_neg_radicand_raises : coeffs.a 1 2 = none := by
  norm_num [coeffs.a, powHalf]

/-- Claim C8 (amended): the coefficient functions raise a Python-2
`ValueError` when evaluated at arguments with a negative radicand (see the
counterexample), but at every argument combination the flux formulas of
`dPdt`/`dJdt` actually use — `a(l,m)`, `b(l,-m)`, `b(l+1,m+1)`, `c(l,m)`,
`d(l,m)`, `d(l+1,m)`, `f(l,m)`, `f(l,-m)` for `2 ≤ l` and `-l ≤ m ≤ l` —
the radicand is nonnegative and every denominator is nonzero, so the
evaluation returns a finite real value and no crash occurs. -/
theorem coeffs_flux_calls_defined (l m : ℤ) (h2 : 2 ≤ l) (hm1 : -l ≤ m) (hm2 : m ≤ l) :
    (coeffs.a l m).isSome = true ∧ (coeffs.b l (-m)).isSome = true ∧
    (coeffs.b (l + 1) (m + 1)).isSome = true ∧ (coeffs.c l m).isSome = true ∧
    (coeffs.d l m).isSome = true ∧ (coeffs.d (l + 1) m).isSome = true ∧
    (coeffs.f l m).isSome = true ∧ (coeffs.f l (-m)).isSome = true := by
  have hden : (l * (l + 1) : ℤ) ≠ 0 := (mul_pos (by omega) (by omega)).ne'
  have hodd : ((2 * l - 1) * (2 * l + 1) : ℤ) ≠ 0 := (mul_pos (by omega) (by omega)).ne'
  have hodd' : ((2 * (l + 1) - 1) * (2 * (l + 1) + 1) : ℤ) ≠ 0 :=
    (mul_pos (by omega) (by omega)).ne'
  have hoddpos : (0 : ℚ) ≤ (((2 * l - 1) * (2 * l + 1) : ℤ) : ℚ) := by
    have : (0 : ℤ) ≤ (2 * l - 1) * (2 * l + 1) := le_of_lt (mul_pos (by omega) (by omega))
    exact_mod_cast this
  have hoddpos' : (0 : ℚ) ≤ (((2 * (l + 1) - 1) * (2 * (l + 1) + 1) : ℤ) : ℚ) := by
    have : (0 : ℤ) ≤ (2 * (l + 1) - 1) * (2 * (l + 1) + 1) :=
      le_of_lt (mul_pos (by omega) (by omega))
    exact_mod_cast this
  refine ⟨?_, ?_, ?_, ?_, ?_, ?_, ?_, ?_⟩
  · have hrad : (0 : ℚ) ≤ ((l : ℚ) - (m : ℚ)) * ((l : ℚ) + (m : ℚ) + 1) := by
      exact_mod_cast mul_nonneg (show (0 : ℤ) ≤ l - m by omega)
        (show (0 : ℤ) ≤ l + m + 1 by omega)
    simp [coeffs.a, powHalf, hrad, hden]
  · have hnum : (0 : ℤ) ≤ (l - 2) * (l + 2) * (l + -m) * (l + -m - 1) := by
      nlinarith [consec_mul_nonneg (l - m),
        mul_nonneg (show (0 : ℤ) ≤ l - 2 by omega) (show (0 : ℤ) ≤ l + 2 by omega)]
    simp [coeffs.b, powHalf, hodd, show (2 * l : ℤ) ≠ 0 by omega]
    refine div_nonneg (by exact_mod_cast hnum) (by exact_mod_cast hoddpos)
  · have hnum : (0 : ℤ) ≤ (l + 1 - 2) * (l + 1 + 2) * (l + 1 + (m + 1)) * (l + 1 + (m + 1) - 1) :=
      mul_nonneg (mul_nonneg (mul_nonneg (by omega) (by omega)) (by omega)) (by omega)
    simp [coeffs.b, powHalf, hodd', show (2 * (l + 1) : ℤ) ≠ 0 by omega]
    refine div_nonneg (by exact_mod_cast hnum) (by exact_mod_cast hoddpos')
  · simp [coeffs.c, hden]
  · have hnum : (0 : ℤ) ≤ (l - 2) * (l + 2) * (l - m) * (l + m) :=
      mul_nonneg (mul_nonneg (mul_nonneg (by omega) (by omega)) (by omega)) (by omega)
    simp [coeffs.d, powHalf, hodd, show (l : ℤ) ≠ 0 by omega]
    refine div_nonneg (by exact_mod_cast hnum) (by exact_mod_cast hoddpos)
  · have hnum : (0 : ℤ) ≤ (l + 1 - 2) * (l + 1 + 2) * (l + 1 - m) * (l + 1 + m) :=
      mul_nonneg (mul_nonneg (mul_nonneg (by omega) (by omega)) (by omega)) (by omega)
    simp [coeffs.d, powHalf, hodd', show (l + 1 : ℤ) ≠ 0 by omega]
    refine div_nonneg (by exact_mod_cast hnum) (by exact_mod_cast hoddpos')
  · have hZ : m * (m + 1) ≤ l * (l + 1) := by
      nlinarith [mul_nonneg (show (0 : ℤ) ≤ l - m by omega) (show (0 : ℤ) ≤ l + m + 1 by omega)]
    simp [coeffs.f, powHalf]
    exact_mod_cast hZ
  · have hZ : (0 : ℤ) ≤ l * (l + 1) + m * (-m + 1) := by
      nlinarith [mul_nonneg (show (0 : ℤ) ≤ l + m by omega) (show (0 : ℤ) ≤ l - m + 1 by omega)]
    simp [coeffs.f, powHalf]
    exact_mod_cast hZ

/-- Witness for C8 (amended): all eight coefficient evaluations made by the
flux formulas are defined at the concrete in-range mode `(l, m) = (2, 0)`. -/
theorem coeffs_flux_calls_defined_witness :
    (2 ≤ (2 : ℤ) ∧ -(2 : ℤ) ≤ 0 ∧ (0 : ℤ) ≤ 2) ∧
    ((coeffs.a 2 0).isSome = true ∧ (coeffs.b 2 (-0)).isSome = true ∧
     (coeffs.b (2 + 1) (0 + 1)).isSome = true ∧ (coeffs.c 2 0).isSome = true ∧
     (coeffs.d 2 0).isSome = true ∧ (coeffs.d (2 + 1) 0).isSome = true ∧
     (coeffs.f 2 0).isSome = true ∧ (coeffs.f 2 (-0)).isSome = true) :=
  ⟨⟨by decide, by decide, by decide⟩,
    coeffs_flux_calls_defined 2 0 (by decide) (by decide) (by decide)⟩

/-- Claim C10: constructing a configuration with `t_ref` in the range
`[-4500, -100]` passes the validation assert, and the stored reference
time is the `None` sentinel exactly when `t_ref = -4500` and the supplied
value unchanged otherwise. -/
theorem init_tref_spec (t : ℚ) (h1 : -4500 ≤ t) (h2 : t ≤ -100) :
    initTref t = Except.ok (if t = -4500 then none else some t) := by
  simp [initTref, h1, h2]

/-- Witness for C10: at the boundary `t_ref = -4500` construction succeeds
and the stored value is the `None` sentinel. -/
theorem init_tref_spec_witness :
    (-4500 ≤ (-4500 : ℚ) ∧ (-4500 : ℚ) ≤ -100) ∧ initTref (-4500) = Except.ok none :=
  ⟨⟨by norm_num, by norm_num⟩, by
    simpa using init_tref_spec (-4500) (by norm_num) (by norm_num)⟩

/-- Claim C4, settled as a code bug, with the code evaluated at the failing
input: the `assert max(dPzdt.imag) < 1e-6` of `surrkick.dPdt` compares the
signed maximum, so an accumulated `dPzdt` series whose imaginary part is
`-1` at every sample — magnitude far above the `1e-6` tolerance — passes
the check and the residue is silently discarded (`Except.ok`), where the
claim (and the evident intent of the check) requires a consistency-check
failure. -/
theorem dPdt_negative_imag_not_caught :
    dPdtFinalize [(0, 0)] [(0, -1)] = Except.ok [(0, 0, 0)] ∧
    (1 : ℚ) / 1000000 < |(-1 : ℚ)| := by
  constructor
  · rw [dPdtFinalize, if_pos (by norm_num [npmax])]
    rfl
  · norm_num

/-- Claim C2, settled as a code bug, with the code evaluated at a
divergent input: `surrkick.xoft` subtracts `vo * times` with `vo` drawn
from the hard-coded `origin = [0,0,0]`, so the trajectory equals the bare
antiderivative for every choice of interpolation operator, time grid and
velocity series — no drift correction is ever applied (the buffer-mean
`P0` computed inside `Poft`, src/surrkick.py:325-328, is discarded).  In
particular the code differs from the spec-modelled drift-corrected
trajectory at a concrete input with nonzero buffer-mean velocity. -/
theorem xoft_no_drift_correction :
    (∀ (A : (ℕ → ℚ) → ℕ → ℚ) (times : ℕ → ℚ) (v : Fin 3 → ℕ → ℚ) (c : Fin 3) (i : ℕ),
        integ.xoft A times v c i = A (v c) i) ∧
    integ.xoft (fun g => g) (fun i => (i : ℚ)) (fun _ _ => 1) 0 5 ≠
      integ.xoftDrift (fun g => g) (fun i => (i : ℚ)) (fun _ _ => 1) (fun _ => 1) 0 5 := by
  constructor
  · intro A times v c i
    simp [integ.xoft, integ.origin3]
  · norm_num [integ.xoft, integ.xoftDrift, integ.origin3]

/-- Claim C7: for every integer pair `(l, m)`, `h(l,m)` returns the stored
mode series when `2 ≤ l ≤ lmax` and `-l ≤ m ≤ l` and the zero series of
the time-grid length otherwise (a policy, not an error), and `hdot(l,m)`
follows exactly the same zero-padding policy on the derivative samples. -/
theorem h_hdot_zero_padding {n : ℕ} (S : Surrkick n) (l m : ℤ) :
    (S.h l m = if 2 ≤ l ∧ l ≤ S.lmax ∧ -l ≤ m ∧ m ≤ l
      then S.hsample (l, m) else fun _ => 0) ∧
    (S.hdot l m = if 2 ≤ l ∧ l ≤ S.lmax ∧ -l ≤ m ∧ m ≤ l
      then S.hdotsample (l, m) else fun _ => 0) := by
  constructor
  · unfold Surrkick.h
    split_ifs <;> first | rfl | omega
  · unfold Surrkick.hdot
    split_ifs <;> first | rfl | omega

/-- Claim C5: at every time sample the energy flux `dEdt` equals
`1/(16π)` times the sum of `|hdot(l,m)|²` over exactly the mode indices
`2 ≤ l ≤ lmax`, `-l ≤ m ≤ l`, and consequently `dEdt` is nonnegative
pointwise. -/
theorem dEdt_formula_nonneg {n : ℕ} (S : Surrkick n) (i : Fin n) :
    S.dEdt i = (1 / (16 * Real.pi)) *
      ∑ p ∈ specModes S.lmax, Complex.abs (S.hdot p.1 p.2 i) ^ 2 ∧
    0 ≤ S.dEdt i := by
  have hsum : S.dEdt i = ∑ p ∈ specModes S.lmax,
      (1 / (16 * Real.pi)) * Complex.abs (S.hdot p.1 p.2 i) ^ 2 := by
    rw [Surrkick.dEdt, ← single_toFinset,
      List.sum_toFinset _ nodup_summodes_single]
  constructor
  · rw [hsum, Finset.mul_sum]
  · rw [hsum]
    refine Finset.sum_nonneg fun p _ => ?_
    positivity

/-- Counterexample for C1: for the concrete momentum series `Pone` with
last sample `(1, 0, 0)`, the code's `kickcomp` is `voft[-1] = (-1, 0, 0)`,
which differs from `Poft[-1] = (1, 0, 0)`: the claim `kickcomp = P(t_last)`
fails on the code. -/
theorem kickcomp_ne_Poft_last : kickcomp Pone ≠ Pone (Fin.last 0) := by
  simp only [kickcomp, voft, vneg, Pone, ne_eq, Prod.mk.injEq]
  norm_num

/-- Claim C1 (amended): `kickcomp` equals `voft[-1] = -Poft[-1]`, the
negation of the integrated radiated momentum at the last sample (not
`Poft[-1]` itself); the scalar `kick` equals `Prad = ‖Poft[-1]‖`, and since
negation preserves the norm, `kick = ‖kickcomp‖` still holds. -/
theorem kickcomp_eq_neg_Poft_last {n : ℕ} (Poft : Fin (n + 1) → Vec3) :
    kickcomp Poft = vneg (Poft (Fin.last n)) ∧
    kick Poft = norm3 (Poft (Fin.last n)) ∧
    kick Poft = norm3 (kickcomp Poft) :=
  ⟨rfl, rfl, by rw [show kickcomp Poft = vneg (Poft (Fin.last n)) from rfl, norm3_vneg]; rfl⟩

/-- Counterexample for C3: on the zero-kick configuration `Pzero` the
code's `kickdir` does not fail with a degenerate-direction error — the
unguarded division succeeds and returns a (junk) vector, refuting the
claim that a zero-kick caller receives an explicit error. -/
theorem kickdir_zero_kick_no_error :
    kick Pzero = 0 ∧ kickdir Pzero = Except.ok (0, 0, 0) := by
  constructor
  · simp [kick, Prad, Pzero, norm3]
  · simp [kickdir, kickcomp, voft, vneg, vdivs, kick, Prad, Pzero, norm3]

/-- Claim C3 (amended): `kickdir` performs the unguarded componentwise
division `kickcomp / kick` and never fails — at `kick = 0` it returns the
(in floating point, non-finite) junk quotient rather than an error — and
whenever `kick > 0` the returned quotient is the unit vector along
`kickcomp`. -/
theorem kickdir_unguarded_division {n : ℕ} (Poft : Fin (n + 1) → Vec3) :
    kickdir Poft = Except.ok (vdivs (kickcomp Poft) (kick Poft)) ∧
    (0 < kick Poft → norm3 (vdivs (kickcomp Poft) (kick Poft)) = 1) := by
  refine ⟨rfl, fun hk => ?_⟩
  have h1 : norm3 (kickcomp Poft) = kick Poft := by
    rw [show kickcomp Poft = vneg (Poft (Fin.last n)) from rfl, norm3_vneg]
    rfl
  rw [norm3_vdivs _ _ hk.le, h1, div_self hk.ne']

/-- Witness for C3 (amended): the momentum series `Pthreefour` has
`kick = 5 > 0`, and the theorem yields a unit direction vector there. -/
theorem kickdir_unguarded_division_witness :
    0 < kick Pthreefour ∧
    norm3 (vdivs (kickcomp Pthreefour) (kick Pthreefour)) = 1 := by
  have hk : kick Pthreefour = 5 := by
    rw [kick, Prad, Pthreefour, norm3]
    rw [show ((3 : ℝ), (4 : ℝ), (0 : ℝ)).1 ^ 2 + ((3 : ℝ), (4 : ℝ), (0 : ℝ)).2.1 ^ 2 +
        ((3 : ℝ), (4 : ℝ), (0 : ℝ)).2.2 ^ 2 = 5 ^ 2 by norm_num]
    exact Real.sqrt_sq (by norm_num)
  exact ⟨by rw [hk]; norm_num,
    (kickdir_unguarded_division Pthreefour).2 (by rw [hk]; norm_num)⟩
